import Mathlib

/-!
Verification of the event API, serialization utilities, schema utilities and
action-outcome events of this repository.

Python values are shallowly embedded:
* Python `bytes`/`str` values are `List Nat` of byte values `< 256`
  (a `str` is represented by its UTF-8 bytes);
* fallible Python code returns `Option`/`Except`;
* HTTP endpoints return `Except Nat α`, where the error component is the
  HTTP status code of the raised `HTTPException`;
* CPython `float`s are IEEE-754 binary64 values, embedded as the exact
  rationals they denote, with explicit correct rounding where CPython rounds.
-/

namespace Prefect

/-- A list of byte values: every element is `< 256`.  This is the invariant of
the `List Nat` embedding of Python `bytes`. -/
def ValidBytes (bs : List Nat) : Prop := ∀ b ∈ bs, b < 256

instance : DecidablePred ValidBytes := fun bs =>
  List.decidableBAll (fun b => b < 256) bs

/-- UTF-8 bytes of an ASCII Lean string literal, used to embed the string
constants appearing in the source. -/
def asciiBytes (s : String) : List Nat := s.data.map Char.toNat

/-! ### The Python `base64` module (standard alphabet)

`events.py` calls `base64.b64encode` / `base64.b64decode`; they are embedded
concretely.  `b64chr` maps a sextet to the ASCII code of its alphabet
character; `b64ord` is its inverse; 61 is the ASCII code of the padding
character `=`. -/

/-- ASCII code of the standard-base64 alphabet character for a sextet. -/
def b64chr (n : Nat) : Nat :=
  if n < 26 then 65 + n
  else if n < 52 then 97 + (n - 26)
  else if n < 62 then 48 + (n - 52)
  else if n = 62 then 43
  else 47

/-- Sextet value of an ASCII code, `none` if the code is not in the standard
base64 alphabet. -/
def b64ord (c : Nat) : Option Nat :=
  if 65 ≤ c ∧ c ≤ 90 then some (c - 65)
  else if 97 ≤ c ∧ c ≤ 122 then some (26 + (c - 97))
  else if 48 ≤ c ∧ c ≤ 57 then some (52 + (c - 48))
  else if c = 43 then some 62
  else if c = 47 then some 63
  else none

/-- `base64.b64encode` on bytes: three input bytes become four alphabet
characters; a final remainder of one or two bytes is padded with `=` (61). -/
def b64encode : List Nat → List Nat
  | [] => []
  | [a] => [b64chr (a / 4), b64chr (a % 4 * 16), 61, 61]
  | [a, b] => [b64chr (a / 4), b64chr (a % 4 * 16 + b / 16), b64chr (b % 16 * 4), 61]
  | a :: b :: c :: rest =>
      b64chr (a / 4) :: b64chr (a % 4 * 16 + b / 16) ::
        b64chr (b % 16 * 4 + c / 64) :: b64chr (c % 64) :: b64encode rest

/-- Decoding of a final base64 quadruple, handling `=` padding. -/
def b64decodeLast (c1 c2 c3 c4 : Nat) : Option (List Nat) :=
  (b64ord c1).bind fun s1 =>
  (b64ord c2).bind fun s2 =>
  if c3 = 61 then
    if c4 = 61 then some [s1 * 4 + s2 / 16] else none
  else
    (b64ord c3).bind fun s3 =>
    if c4 = 61 then some [s1 * 4 + s2 / 16, s2 % 16 * 16 + s3 / 4]
    else
      (b64ord c4).bind fun s4 =>
      some [s1 * 4 + s2 / 16, s2 % 16 * 16 + s3 / 4, s3 % 4 * 64 + s4]

/-- `base64.b64decode` on bytes: the input must consist of quadruples of
alphabet characters, the final quadruple possibly `=`-padded; anything else
(in particular a length that is not a multiple of 4) is an error, embedded
as `none`. -/
def b64decode : List Nat → Option (List Nat)
  | [] => some []
  | c1 :: c2 :: c3 :: c4 :: rest =>
    if rest = [] then b64decodeLast c1 c2 c3 c4
    else
      (b64ord c1).bind fun s1 =>
      (b64ord c2).bind fun s2 =>
      (b64ord c3).bind fun s3 =>
      (b64ord c4).bind fun s4 =>
      (b64decode rest).bind fun tl =>
      some ((s1 * 4 + s2 / 16) :: (s2 % 16 * 16 + s3 / 4) :: (s3 % 4 * 64 + s4) :: tl)
  | _ => none

theorem b64ord_b64chr : ∀ n < 64, b64ord (b64chr n) = some n := by decide

theorem b64chr_ne_pad : ∀ n < 64, b64chr n ≠ 61 := by decide

theorem b64chr_lt_256 : ∀ n < 64, b64chr n < 256 := by decide

theorem b64encode_ne_nil : ∀ bs : List Nat, bs ≠ [] → b64encode bs ≠ [] := by
  intro bs h
  match bs with
  | [a] => simp [b64encode]
  | [a, b] => simp [b64encode]
  | a :: b :: c :: rest => simp [b64encode]

/-- Round-trip of the embedded `base64`: decoding an encoding recovers the
original bytes. -/
theorem b64decode_b64encode (bs : List Nat) (h : ValidBytes bs) :
    b64decode (b64encode bs) = some bs := by
  induction bs using b64encode.induct with
  | case1 => simp [b64encode, b64decode]
  | case2 a =>
    have ha : a < 256 := h a (by simp)
    have h1 : a / 4 < 64 := by omega
    have h2 : a % 4 * 16 < 64 := by omega
    simp [b64encode, b64decode, b64decodeLast, b64ord_b64chr _ h1,
      b64ord_b64chr _ h2]
    omega
  | case3 a b =>
    have ha : a < 256 := h a (by simp)
    have hb : b < 256 := h b (by simp)
    have h1 : a / 4 < 64 := by omega
    have h2 : a % 4 * 16 + b / 16 < 64 := by omega
    have h3 : b % 16 * 4 < 64 := by omega
    simp [b64encode, b64decode, b64decodeLast, b64ord_b64chr _ h1,
      b64ord_b64chr _ h2, b64ord_b64chr _ h3, b64chr_ne_pad _ h3]
    omega
  | case4 a b c rest ih =>
    have ha : a < 256 := h a (by simp)
    have hb : b < 256 := h b (by simp)
    have hc : c < 256 := h c (by simp)
    have hrest : ValidBytes rest := fun x hx => h x (by simp [hx])
    have h1 : a / 4 < 64 := by omega
    have h2 : a % 4 * 16 + b / 16 < 64 := by omega
    have h3 : b % 16 * 4 + c / 64 < 64 := by omega
    have h4 : c % 64 < 64 := by omega
    by_cases hr : rest = []
    · subst hr
      simp [b64encode, b64decode, b64decodeLast, b64ord_b64chr _ h1,
        b64ord_b64chr _ h2, b64ord_b64chr _ h3, b64ord_b64chr _ h4,
        b64chr_ne_pad _ h3, b64chr_ne_pad _ h4]
      omega
    · have hne : b64encode rest ≠ [] := b64encode_ne_nil rest hr
      simp [b64encode, b64decode, hne, b64ord_b64chr _ h1,
        b64ord_b64chr _ h2, b64ord_b64chr _ h3, b64ord_b64chr _ h4, ih hrest]
      refine ⟨by omega, by omega, by omega⟩

theorem b64chr_lt (n : Nat) : b64chr n < 256 := by
  unfold b64chr
  split <;> [omega; split <;> [omega; split <;> [omega; split <;> omega]]]

/-- Every byte produced by the embedded `b64encode` is a valid byte (in fact
an ASCII code). -/
theorem b64encode_valid (bs : List Nat) : ValidBytes (b64encode bs) := by
  induction bs using b64encode.induct with
  | case1 => intro b hb; simp [b64encode] at hb
  | case2 a =>
    intro x hx
    simp only [b64encode, List.mem_cons, List.not_mem_nil, or_false] at hx
    rcases hx with h | h | h | h <;> subst h <;> first | exact b64chr_lt _ | omega
  | case3 a b =>
    intro x hx
    simp only [b64encode, List.mem_cons, List.not_mem_nil, or_false] at hx
    rcases hx with h | h | h | h <;> subst h <;> first | exact b64chr_lt _ | omega
  | case4 a b c rest ih =>
    intro x hx
    simp only [b64encode, List.mem_cons] at hx
    rcases hx with h | h | h | h | h
    · subst h; exact b64chr_lt _
    · subst h; exact b64chr_lt _
    · subst h; exact b64chr_lt _
    · subst h; exact b64chr_lt _
    · exact ih x h

/-! ### `src/src/prefect/server/api/events.py`

Endpoints return `Except Nat α`: `.error code` embeds a raised
`HTTPException(status_code=code)` (or a FastAPI request-validation failure),
`.ok` a successful response.  The storage layer
(`prefect.server.events.storage.database`) is not part of the shown sources
and is passed in as a function argument. -/

def HTTP_204_NO_CONTENT : Nat := 204
def HTTP_403_FORBIDDEN : Nat := 403
def HTTP_404_NOT_FOUND : Nat := 404
def HTTP_422_UNPROCESSABLE_ENTITY : Nat := 422

/-- `verified_page_token`: base64-decode the `page-token` query value; a
decoding failure raises HTTP 403, an empty decoded token raises HTTP 403,
otherwise the decoded token is returned. -/
def verified_page_token (page_token : List Nat) : Except Nat (List Nat) :=
  match b64decode page_token with
  | none => .error HTTP_403_FORBIDDEN
  | some decoded =>
      if decoded = [] then .error HTTP_403_FORBIDDEN else .ok decoded

/-- The fixed path-and-query part of the URL built by
`generate_next_page_link`, following `request.base_url`. -/
def nextPagePath : List Nat := asciiBytes ("api/events/filter/next?page-token=")

/-- `generate_next_page_link`: no link for an absent or empty token, else the
next-page URL embedding the base64-encoded token. -/
def generate_next_page_link (baseUrl : List Nat) :
    Option (List Nat) → Option (List Nat)
  | none => none
  | some page_token =>
      if page_token = [] then none
      else some (baseUrl ++ nextPagePath ++ b64encode page_token)

/-- Response shape of the event query endpoints (`EventPage`). -/
structure EventPage (ε : Type) where
  events : List ε
  total : Nat
  next_page : Option (List Nat)
deriving DecidableEq

/-- `read_account_events_page` (`GET /events/filter/next`): the token is
checked by `verified_page_token`; a storage `InvalidTokenError` (embedded as
`Except Unit`'s error) is mapped to HTTP 403. -/
def read_account_events_page {ε : Type}
    (query_next_page : List Nat → Except Unit (List ε × Nat × Option (List Nat)))
    (baseUrl page_token_raw : List Nat) : Except Nat (EventPage ε) :=
  match verified_page_token page_token_raw with
  | .error code => .error code
  | .ok page_token =>
    match query_next_page page_token with
    | .error _ => .error HTTP_403_FORBIDDEN
    | .ok (events, total, next_token) =>
        .ok { events := events, total := total,
              next_page := generate_next_page_link baseUrl next_token }

/-- Modelled from the spec: `INTERACTIVE_PAGE_SIZE`, the fixed interactive
page cap imported from `prefect.server.events.storage`, which is not part of
the shown sources ("limit ≤ a fixed interactive page cap"). -/
def INTERACTIVE_PAGE_SIZE : Int := 50

/-- The FastAPI validation of `read_events`' body parameter
`limit: int = Body(INTERACTIVE_PAGE_SIZE, ge=0, le=INTERACTIVE_PAGE_SIZE)`:
an omitted value defaults to the cap; values outside `[0, cap]` are rejected
at request validation with HTTP 422. -/
def validated_limit (limit : Option Int) : Except Nat Int :=
  let l := limit.getD INTERACTIVE_PAGE_SIZE
  if 0 ≤ l ∧ l ≤ INTERACTIVE_PAGE_SIZE then .ok l
  else .error HTTP_422_UNPROCESSABLE_ENTITY

/-- `read_events` (`POST /events/filter`): a validated limit is passed to
`query_events` as the page size and the first page is returned together with
a next-page link. -/
def read_events {ε : Type}
    (query_events : Int → List ε × Nat × Option (List Nat))
    (baseUrl : List Nat) (limit : Option Int) : Except Nat (EventPage ε) :=
  match validated_limit limit with
  | .error code => .error code
  | .ok l =>
      let r := query_events l
      .ok { events := r.1, total := r.2.1,
            next_page := generate_next_page_link baseUrl r.2.2 }

/-- Modelled from the spec: a related resource is a set of resource labels
including a role label (§3 RelatedResource).  The schema module
`prefect.server.events.schemas.events` is not part of the shown sources. -/
structure RelatedResource where
  labels : List (String × String)
deriving DecidableEq

/-- Modelled from the spec: the canonical Event shape of §3 — `id`,
`occurred`, dotted event name, primary resource labels, related resources,
payload. -/
structure Event where
  id : Nat
  occurred : Int
  event : String
  resource : List (String × String)
  related : List RelatedResource
  payload : List (String × String)
deriving DecidableEq

/-- Modelled from the spec: an event stamped with its receipt time
(`ReceivedEvent`), produced by `Event.receive`. -/
structure ReceivedEvent extends Event where
  received : Int
deriving DecidableEq

/-- Modelled from the spec: `Event.receive` marks the event as received at
the current time ("publishes each upon receipt"). -/
def Event.receive (e : Event) (now : Int) : ReceivedEvent :=
  { e with received := now }

/-- Observable outcome of `create_events` (`POST /events`): the HTTP status,
the (absent) response body, and the messages handed to `messaging.publish`. -/
structure BatchIngestResponse where
  status_code : Nat
  body : Option (List Nat)
  published : List ReceivedEvent
deriving DecidableEq

/-- `create_events`: publish one received copy of every posted event, in
order, and respond 204 with no body. -/
def create_events (now : Int) (events : List Event) : BatchIngestResponse :=
  { status_code := HTTP_204_NO_CONTENT
    body := none
    published := events.map (fun e => e.receive now) }

/-- One inbound WebSocket frame of the streaming ingestion session, or the
client's disconnect (normal close, or abnormal termination raising one of
`NORMAL_DISCONNECT_EXCEPTIONS`). -/
inductive Frame where
  | text (eventJson : String)
  | disconnectNormal
  | disconnectAbnormal
deriving DecidableEq

/-- Observable outcome of a `stream_events_in` session: what was published,
and whether an exception escaped to the caller. -/
structure StreamOutcome where
  published : List ReceivedEvent
  raised : Bool
deriving DecidableEq

/-- `stream_events_in` (`WS /events/in`): each text frame is parsed as one
Event and published (marked received) before the next frame is read; a
normal disconnect ends `iter_text`, an abnormal one raises an exception in
`NORMAL_DISCONNECT_EXCEPTIONS`, which the handler swallows (`pass`). -/
def stream_events_in (parse_raw : String → Event) (now : Int) :
    List Frame → StreamOutcome
  | [] => { published := [], raised := false }
  | .disconnectNormal :: _ => { published := [], raised := false }
  | .disconnectAbnormal :: _ => { published := [], raised := false }
  | .text s :: rest =>
      let out := stream_events_in parse_raw now rest
      { out with published := (parse_raw s).receive now :: out.published }

/-- The text frames a session reads: everything before the first
disconnect. -/
def leadingTexts : List Frame → List String
  | .text s :: rest => s :: leadingTexts rest
  | _ => []

/-- Modelled from the spec: the countable dimensions of the event counting
API ("the day the event occurred, the type of event, or the IDs of the
resources"); `prefect.server.events.counting` is not part of the shown
sources. -/
inductive Countable where
  | day
  | event
  | resource
deriving DecidableEq

/-- Modelled from the spec: the time unit of a counting bucket. -/
inductive TimeUnit where
  | week
  | day
  | hour
  | minute
  | second
deriving DecidableEq

/-- Modelled from the spec: the exception raised by storage for invalid
counting parameters, carrying a descriptive message. -/
structure InvalidEventCountParameters where
  message : String
deriving DecidableEq

/-- Modelled from the spec: one bucket of the counting response
(`{label, count, start timestamp}`). -/
structure EventCount where
  label : String
  count : Nat
  start_time : Int
deriving DecidableEq

/-- `handle_event_count_request`: forward to `count_events` and map an
`InvalidEventCountParameters` exception to HTTP 422 carrying the exception's
message as `detail`. -/
def handle_event_count_request {φ : Type}
    (count_events :
      φ → Countable → TimeUnit → ℚ → Except InvalidEventCountParameters (List EventCount))
    (filter : φ) (countable : Countable) (time_unit : TimeUnit)
    (time_interval : ℚ) : Except (Nat × String) (List EventCount) :=
  match count_events filter countable time_unit time_interval with
  | .ok counts => .ok counts
  | .error exc => .error (HTTP_422_UNPROCESSABLE_ENTITY, exc.message)

/-- The detail FastAPI reports when request validation fails (the exact text
is framework-generated; only its status matters to the claims). -/
def requestValidationDetail : String := "request validation error"

/-- `count_account_events` (`POST /events/count-by/{countable}`): body
defaults `time_unit=day`, `time_interval=1.0` with validation
`ge=0.01` — a smaller interval is rejected at request validation with
HTTP 422 — then delegates to `handle_event_count_request`. -/
def count_account_events {φ : Type}
    (count_events :
      φ → Countable → TimeUnit → ℚ → Except InvalidEventCountParameters (List EventCount))
    (filter : φ) (countable : Countable) (time_unit : Option TimeUnit)
    (time_interval : Option ℚ) : Except (Nat × String) (List EventCount) :=
  let tu := time_unit.getD TimeUnit.day
  let ti := time_interval.getD 1
  if ti < 1 / 100 then
    .error (HTTP_422_UNPROCESSABLE_ENTITY, requestValidationDetail)
  else handle_event_count_request count_events filter countable tu ti

/-! ### Claims about the event API -/

/-- C1: a `page-token` that is not valid base64, or that decodes to the empty
string, or that storage rejects as an invalid token, yields HTTP 403
(forbidden) — the continuation endpoint never answers 404 (not found) — and
`verified_page_token` returns exactly the decoded string of any token that
decodes to a non-empty string. -/
theorem claim_C1_page_token_forbidden {ε : Type}
    (query_next_page : List Nat → Except Unit (List ε × Nat × Option (List Nat)))
    (baseUrl pt : List Nat) :
    (b64decode pt = none → verified_page_token pt = .error HTTP_403_FORBIDDEN) ∧
    (b64decode pt = some [] → verified_page_token pt = .error HTTP_403_FORBIDDEN) ∧
    (∀ tok, verified_page_token pt = .ok tok → query_next_page tok = .error () →
      read_account_events_page query_next_page baseUrl pt
        = .error HTTP_403_FORBIDDEN) ∧
    (read_account_events_page query_next_page baseUrl pt
        ≠ .error HTTP_404_NOT_FOUND) ∧
    (∀ d, b64decode pt = some d → d ≠ [] → verified_page_token pt = .ok d) := by
  refine ⟨?_, ?_, ?_, ?_, ?_⟩
  · intro h
    simp [verified_page_token, h]
  · intro h
    simp [verified_page_token, h]
  · intro tok hv hq
    simp [read_account_events_page, hv, hq]
  · unfold read_account_events_page verified_page_token
    cases hd : b64decode pt with
    | none => simp [HTTP_403_FORBIDDEN, HTTP_404_NOT_FOUND]
    | some d =>
      by_cases hde : d = []
      · simp [hde, HTTP_403_FORBIDDEN, HTTP_404_NOT_FOUND]
      · simp only [if_neg hde]
        cases hq : query_next_page d with
        | error e => simp [HTTP_403_FORBIDDEN, HTTP_404_NOT_FOUND]
        | ok r => simp
  · intro d hd hde
    simp [verified_page_token, hd, hde]

/-- A storage stub that rejects every continuation token with
`InvalidTokenError`. -/
def rejectAllTokens : List Nat → Except Unit (List Unit × Nat × Option (List Nat)) :=
  fun _ => .error ()

/-- Concrete instances of C1: the lone padding byte `=` is invalid base64,
the empty token decodes to the empty string, a storage-rejected token and the
round-tripping token `aGk=` (base64 of `hi`). -/
theorem claim_C1_witness :
    verified_page_token [61] = .error HTTP_403_FORBIDDEN ∧
    verified_page_token [] = .error HTTP_403_FORBIDDEN ∧
    read_account_events_page rejectAllTokens [] (b64encode [104, 105])
      = .error HTTP_403_FORBIDDEN ∧
    verified_page_token (b64encode [104, 105]) = .ok [104, 105] := by
  refine ⟨?_, ?_, ?_, ?_⟩
  · exact (claim_C1_page_token_forbidden rejectAllTokens [] [61]).1 rfl
  · exact (claim_C1_page_token_forbidden rejectAllTokens [] []).2.1 rfl
  · exact (claim_C1_page_token_forbidden rejectAllTokens []
      (b64encode [104, 105])).2.2.1 [104, 105] rfl rfl
  · exact (claim_C1_page_token_forbidden rejectAllTokens []
      (b64encode [104, 105])).2.2.2.2 [104, 105] rfl (by decide)

/-- C2: page tokens round-trip — for a non-empty token the next-page link
embeds the base64 encoding of the token, `verified_page_token` applied to
that embedded value returns the token, and an absent or empty token yields no
link. -/
theorem claim_C2_page_token_roundtrip :
    (∀ baseUrl t, ValidBytes t → t ≠ [] →
      generate_next_page_link baseUrl (some t)
          = some (baseUrl ++ nextPagePath ++ b64encode t) ∧
      verified_page_token (b64encode t) = .ok t) ∧
    (∀ baseUrl, generate_next_page_link baseUrl none = none ∧
      generate_next_page_link baseUrl (some []) = none) := by
  constructor
  · intro baseUrl t hvalid hne
    constructor
    · simp [generate_next_page_link, hne]
    · simp [verified_page_token, b64decode_b64encode t hvalid, hne]
  · intro baseUrl
    exact ⟨rfl, by simp [generate_next_page_link]⟩

/-- Concrete instance of C2 at the token `hi` (bytes `[104, 105]`). -/
theorem claim_C2_witness :
    generate_next_page_link [] (some [104, 105])
        = some (nextPagePath ++ b64encode [104, 105]) ∧
    verified_page_token (b64encode [104, 105]) = .ok [104, 105] := by
  have h := (claim_C2_page_token_roundtrip.1 [] [104, 105] (by decide) (by decide))
  exact ⟨by simpa using h.1, h.2⟩

/-- C5: the batch ingestion endpoint responds 204 with no body and publishes
exactly one received copy of each posted event, in the submitted order; the
empty batch publishes nothing. -/
theorem claim_C5_batch_ingestion (now : Int) (events : List Event) :
    (create_events now events).status_code = 204 ∧
    (create_events now events).body = none ∧
    (create_events now events).published
        = events.map (fun e => e.receive now) ∧
    (create_events now events).published.length = events.length ∧
    (∀ i : Nat, (create_events now events).published[i]?
        = Option.map (fun e => Event.receive e now) events[i]?) ∧
    (events = [] → (create_events now events).published = []) := by
  refine ⟨rfl, rfl, rfl, by simp [create_events], ?_, ?_⟩
  · intro i
    simp [create_events, List.getElem?_map]
  · intro h
    simp [create_events, h]

/-- C6: every streaming session publishes one received event per text frame,
in frame order, stops at the first disconnect, and never raises to the
caller; events published before a disconnect (normal or abnormal) are
retained. -/
theorem claim_C6_stream_ingestion (parse_raw : String → Event) (now : Int) :
    (∀ frames, (stream_events_in parse_raw now frames).raised = false) ∧
    (∀ frames, (stream_events_in parse_raw now frames).published
        = (leadingTexts frames).map (fun s => (parse_raw s).receive now)) ∧
    (∀ (ts : List String) (rest : List Frame),
      (stream_events_in parse_raw now
          (ts.map Frame.text ++ Frame.disconnectNormal :: rest)).published
        = ts.map (fun s => (parse_raw s).receive now)) ∧
    (∀ (ts : List String) (rest : List Frame),
      (stream_events_in parse_raw now
          (ts.map Frame.text ++ Frame.disconnectAbnormal :: rest)).published
        = ts.map (fun s => (parse_raw s).receive now)) := by
  have hraised : ∀ frames, (stream_events_in parse_raw now frames).raised = false := by
    intro frames
    induction frames with
    | nil => rfl
    | cons f rest ih =>
      cases f with
      | text s => simpa [stream_events_in] using ih
      | disconnectNormal => rfl
      | disconnectAbnormal => rfl
  have hpub : ∀ frames, (stream_events_in parse_raw now frames).published
      = (leadingTexts frames).map (fun s => (parse_raw s).receive now) := by
    intro frames
    induction frames with
    | nil => rfl
    | cons f rest ih =>
      cases f with
      | text s => simp [stream_events_in, leadingTexts, ih]
      | disconnectNormal => rfl
      | disconnectAbnormal => rfl
  refine ⟨hraised, hpub, ?_, ?_⟩
  · intro ts rest
    rw [hpub]
    have : leadingTexts (ts.map Frame.text ++ Frame.disconnectNormal :: rest) = ts := by
      induction ts with
      | nil => rfl
      | cons t ts ih => simp [leadingTexts, ih]
    rw [this]
  · intro ts rest
    rw [hpub]
    have : leadingTexts (ts.map Frame.text ++ Frame.disconnectAbnormal :: rest) = ts := by
      induction ts with
      | nil => rfl
      | cons t ts ih => simp [leadingTexts, ih]
    rw [this]

/-- C7: the query limit is validated into `[0, INTERACTIVE_PAGE_SIZE]`,
defaults to `INTERACTIVE_PAGE_SIZE` when omitted, out-of-range limits are
rejected before the query runs, and every accepted page size is at most the
cap. -/
theorem claim_C7_limit_cap {ε : Type}
    (query_events : Int → List ε × Nat × Option (List Nat))
    (baseUrl : List Nat) :
    (validated_limit none = .ok INTERACTIVE_PAGE_SIZE) ∧
    (∀ l, 0 ≤ l → l ≤ INTERACTIVE_PAGE_SIZE → validated_limit (some l) = .ok l) ∧
    (∀ l, l < 0 ∨ INTERACTIVE_PAGE_SIZE < l →
      read_events query_events baseUrl (some l)
        = .error HTTP_422_UNPROCESSABLE_ENTITY) ∧
    (∀ limit l, validated_limit limit = .ok l →
      0 ≤ l ∧ l ≤ INTERACTIVE_PAGE_SIZE) := by
  refine ⟨by simp [validated_limit, INTERACTIVE_PAGE_SIZE], ?_, ?_, ?_⟩
  · intro l h0 hc
    simp [validated_limit, h0, hc]
  · intro l hout
    have hnot : ¬ (0 ≤ l ∧ l ≤ INTERACTIVE_PAGE_SIZE) := by
      rcases hout with h | h
      · exact fun hc => absurd hc.1 (by omega)
      · exact fun hc => absurd hc.2 (by omega)
    simp [read_events, validated_limit, hnot]
  · intro limit l h
    simp only [validated_limit] at h
    split at h
    · rename_i hc
      cases h
      exact hc
    · cases h

/-- Concrete instances of C7: limit 60 is rejected with 422, limit 10 is
accepted, and the default is the interactive page cap 50. -/
theorem claim_C7_witness :
    validated_limit none = .ok 50 ∧
    validated_limit (some 10) = .ok 10 ∧
    read_events (ε := Unit) (fun _ => ([], 0, none)) [] (some 60)
      = .error HTTP_422_UNPROCESSABLE_ENTITY ∧
    (0 ≤ (10 : Int) ∧ (10 : Int) ≤ INTERACTIVE_PAGE_SIZE) := by
  have h := claim_C7_limit_cap (ε := Unit) (fun _ => ([], 0, none)) []
  refine ⟨h.1, h.2.1 10 (by decide) (by decide), ?_, ?_⟩
  · exact h.2.2.1 60 (Or.inr (by decide))
  · exact h.2.2.2 (some 10) 10 (h.2.1 10 (by decide) (by decide))

/-- C4: invalid counting parameters rejected by storage yield HTTP 422
carrying the `InvalidEventCountParameters` message, the endpoint never
crashes (every outcome is a success or a 422 error), and a `time_interval`
below 0.01 is rejected at request validation. -/
theorem claim_C4_count_errors {φ : Type}
    (count_events :
      φ → Countable → TimeUnit → ℚ → Except InvalidEventCountParameters (List EventCount))
    (filter : φ) (countable : Countable) :
    (∀ tu ti msg, 1 / 100 ≤ ti →
      count_events filter countable tu ti = .error ⟨msg⟩ →
      count_account_events count_events filter countable (some tu) (some ti)
        = .error (HTTP_422_UNPROCESSABLE_ENTITY, msg)) ∧
    (∀ tu ti,
      (∃ cs, count_account_events count_events filter countable tu ti = .ok cs) ∨
      (∃ m, count_account_events count_events filter countable tu ti
          = .error (HTTP_422_UNPROCESSABLE_ENTITY, m))) ∧
    (∀ tu ti, ti < 1 / 100 →
      count_account_events count_events filter countable tu (some ti)
        = .error (HTTP_422_UNPROCESSABLE_ENTITY, requestValidationDetail)) := by
  refine ⟨?_, ?_, ?_⟩
  · intro tu ti msg hge hresult
    have hnot : ¬ ti < 1 / 100 := not_lt.mpr hge
    simp only [count_account_events, Option.getD_some]
    rw [if_neg hnot]
    simp [handle_event_count_request, hresult]
  · intro tu ti
    by_cases hlt : ti.getD 1 < 1 / 100
    · refine Or.inr ⟨requestValidationDetail, ?_⟩
      simp only [count_account_events]
      rw [if_pos hlt]
    · cases h : count_events filter countable (tu.getD TimeUnit.day) (ti.getD 1) with
      | ok counts =>
        refine Or.inl ⟨counts, ?_⟩
        simp only [count_account_events]
        rw [if_neg hlt]
        simp [handle_event_count_request, h]
      | error exc =>
        refine Or.inr ⟨exc.message, ?_⟩
        simp only [count_account_events]
        rw [if_neg hlt]
        simp [handle_event_count_request, h]
  · intro tu ti hlt
    simp only [count_account_events, Option.getD_some]
    rw [if_pos hlt]

/-- Concrete instances of C4: a storage rejection with message `bad interval`
surfaces as a 422 with that message, and `time_interval = 1/1000 < 0.01` is
rejected at validation. -/
theorem claim_C4_witness :
    count_account_events (φ := Unit)
        (fun _ _ _ _ => .error ⟨"bad interval"⟩) () Countable.day
        (some TimeUnit.day) (some 1)
      = .error (HTTP_422_UNPROCESSABLE_ENTITY, "bad interval") ∧
    count_account_events (φ := Unit)
        (fun _ _ _ _ => .error ⟨"bad interval"⟩) () Countable.day
        (some TimeUnit.day) (some (1 / 1000))
      = .error (HTTP_422_UNPROCESSABLE_ENTITY, requestValidationDetail) := by
  constructor
  · exact (claim_C4_count_errors (φ := Unit)
      (fun _ _ _ _ => .error ⟨"bad interval"⟩) () Countable.day).1
      TimeUnit.day 1 ("bad interval") (by norm_num) rfl
  · exact (claim_C4_count_errors (φ := Unit)
      (fun _ _ _ _ => .error ⟨"bad interval"⟩) () Countable.day).2.2
      TimeUnit.day (1 / 1000) (by norm_num)

/-! ### Action execution framework (`prefect.server.events.actions`)

The actions module is not part of the shown sources; only its test
`src/tests/events/server/actions/test_suspending_flow_run.py` is.  The
definitions below are modelled from the spec (§4.5, §8) and cross-checked
against that test's concrete expectations. -/

/-- Modelled from the spec: the registered action variants (§3 `Action`). -/
inductive ActionType where
  | suspendFlowRun
  | cancelFlowRun
  | runDeployment
  | sendNotification
deriving DecidableEq

/-- Modelled from the spec and test: the `action_type` slug of each variant
as it appears in outcome-event payloads (the test pins
`suspend-flow-run`). -/
def ActionType.slug : ActionType → String
  | .suspendFlowRun => "suspend-flow-run"
  | .cancelFlowRun => "cancel-flow-run"
  | .runDeployment => "run-deployment"
  | .sendNotification => "send-notification"

/-- Modelled from the spec and test: the HTTP status of the orchestration
request a completed `act` made.  Only `SuspendFlowRun` is pinned by the
shown material: its `act` creates a Suspended state, answered 201 Created
(§8: `payload.status_code == 201`; asserted verbatim by
`test_success_event`). -/
def ActionType.successStatus : ActionType → Nat
  | .suspendFlowRun => 201
  | _ => 200

/-- Modelled from the spec: one action invocation bound to a firing (§3
`TriggeredAction`): `id` is the invocation identity, `action_index` the
position of the action in the automation's ordered action list. -/
structure TriggeredAction where
  id : String
  action_index : Nat
  action : ActionType
  triggering_labels : List (String × String)
  triggering_event : Option Event
deriving DecidableEq

/-- Modelled from the spec: the primary target resource of a triggered
action — the `prefect.resource.id` label of the triggering event's resource
when a triggering event is present, otherwise of the triggering labels
(both fixtures of the test resolve the flow run this way). -/
def TriggeredAction.targetResourceId (ta : TriggeredAction) : Option String :=
  match ta.triggering_event with
  | some e => e.resource.lookup ("prefect.resource.id")
  | none => ta.triggering_labels.lookup ("prefect.resource.id")

/-- Payload of an action outcome event, as asserted by the test. -/
structure OutcomePayload where
  action_index : Nat
  action_type : String
  invocation : String
  status_code : Nat
deriving DecidableEq

/-- An action outcome event (`*.automation.action.executed` /
`*.automation.action.failed`). -/
structure OutcomeEvent where
  event : String
  related : List RelatedResource
  payload : OutcomePayload
deriving DecidableEq

/-- Modelled from the spec and test: the event-name namespace of outcome
events (the test pins `prefect-cloud`). -/
def eventsNamespace : String := "prefect-cloud"

/-- Modelled from the spec: `succeed(triggered_action)` emits exactly one
execution-result event
`{event: "<namespace>.automation.action.executed", related: [the primary
target resource, role="target"], payload: {action_index, action_type,
invocation, status_code}}` (§4.5). -/
def succeed (ta : TriggeredAction) (status_code : Nat) : List OutcomeEvent :=
  [{ event := eventsNamespace ++ (".automation.action.executed")
     related :=
       match ta.targetResourceId with
       | some rid =>
           [⟨[("prefect.resource.id", rid), ("prefect.resource.role", "target")]⟩]
       | none => []
     payload :=
       { action_index := ta.action_index
         action_type := ta.action.slug
         invocation := ta.id
         status_code := status_code } }]

/-- C3: after `act` completes, `succeed` emits exactly one execution-result
event named `<namespace>.automation.action.executed` whose related list
holds the primary target resource with role `target` and whose payload
carries the action index, the action-type slug, the invocation id and — for
a successful `SuspendFlowRun` — status code 201. -/
theorem claim_C3_success_event (ta : TriggeredAction) (rid : String)
    (htarget : ta.targetResourceId = some rid)
    (hact : ta.action = ActionType.suspendFlowRun) :
    ∃ ev, succeed ta ta.action.successStatus = [ev] ∧
      ev.event = eventsNamespace ++ (".automation.action.executed") ∧
      ev.related =
        [⟨[("prefect.resource.id", rid), ("prefect.resource.role", "target")]⟩] ∧
      ev.payload.action_index = ta.action_index ∧
      ev.payload.action_type = ta.action.slug ∧
      ev.payload.invocation = ta.id ∧
      ev.payload.status_code = 201 := by
  refine ⟨_, rfl, rfl, ?_, rfl, rfl, rfl, ?_⟩
  · simp [succeed, htarget]
  · simp [succeed, hact, ActionType.successStatus]

/-- The concrete `TriggeredAction` of `test_success_event`: the single
`SuspendFlowRun` action of the automation, triggered by a
`prefect.flow-run.Weirdo` event on the flow run `f1`. -/
def testSuspendAction : TriggeredAction :=
  { id := "11111111-2222-3333-4444-555555555555"
    action_index := 0
    action := ActionType.suspendFlowRun
    triggering_labels := []
    triggering_event := some
      { id := 1
        occurred := 0
        event := "prefect.flow-run.Weirdo"
        resource := [("prefect.resource.id", "prefect.flow-run.f1")]
        related := []
        payload := [] } }

/-- Concrete instance of C3 at the test fixture: the emitted event matches
every assertion of `test_success_event`. -/
theorem claim_C3_witness :
    ∃ ev, succeed testSuspendAction testSuspendAction.action.successStatus = [ev] ∧
      ev.event = eventsNamespace ++ (".automation.action.executed") ∧
      ev.related =
        [⟨[("prefect.resource.id", "prefect.flow-run.f1"),
           ("prefect.resource.role", "target")]⟩] ∧
      ev.payload.action_index = testSuspendAction.action_index ∧
      ev.payload.action_type = testSuspendAction.action.slug ∧
      ev.payload.invocation = testSuspendAction.id ∧
      ev.payload.status_code = 201 :=
  claim_C3_success_event testSuspendAction ("prefect.flow-run.f1") rfl rfl

/-! ### `src/prefect/utilities/serialize.py`

`AESCipher` pads with the pad length as pad byte and strips by the value of
the final byte; `encrypt` base64-encodes `iv + AES-CBC(pad(raw))`,
`decrypt` inverts it; `serialize`/`deserialize` wrap cloudpickle in base64
and optionally in the cipher.  The AES primitive (`Crypto.Cipher.AES`) and
cloudpickle are external libraries, passed in abstractly. -/

/-- `AESCipher._pad`: right-pad to a multiple of `self.bs = 32`, using the
pad length as the pad byte (`chr(32 - len(s) % 32)`). -/
def _pad (s : List Nat) : List Nat :=
  s ++ List.replicate (32 - s.length % 32) (32 - s.length % 32)

/-- `AESCipher._unpad`: drop as many trailing bytes as the final byte says
(`s[:-ord(s[len(s) - 1:])]`).  CPython raises on empty input (`ord` of an
empty string); the `getLastD` default stands for that never-taken branch. -/
def _unpad (s : List Nat) : List Nat :=
  s.take (s.length - s.getLastD 0)

/-- An abstract block-cipher instance (the external `AES.new(key, MODE_CBC,
iv)` pair of the same key): `enc` and `dec` map an IV and data to data.  Its
inverse property is a hypothesis of the claims, the AES library being an
external collaborator. -/
structure BlockCipher where
  enc : List Nat → List Nat → List Nat
  dec : List Nat → List Nat → List Nat

/-- `AESCipher.encrypt`: pad, then base64-encode the IV followed by the CBC
ciphertext. -/
def AESCipher.encrypt (C : BlockCipher) (iv raw : List Nat) : List Nat :=
  b64encode (iv ++ C.enc iv (_pad raw))

/-- `AESCipher.decrypt`: base64-decode, split off the 16-byte IV
(`AES.block_size`), decrypt the remainder and unpad. -/
def AESCipher.decrypt (C : BlockCipher) (enc : List Nat) : Option (List Nat) :=
  (b64decode enc).map fun e => _unpad (C.dec (e.take 16) (e.drop 16))

/-- `serialize(obj, encryption_key)`: base64-encode the cloudpickle dump and
encrypt it when a key is configured (`if encryption_key:`). -/
def serialize {α : Type} (dumps : α → List Nat) (C : BlockCipher)
    (iv : List Nat) (useKey : Bool) (obj : α) : List Nat :=
  match useKey with
  | true => AESCipher.encrypt C iv (b64encode (dumps obj))
  | false => b64encode (dumps obj)

/-- `deserialize(serialized, encryption_key)`: decrypt when a key is
configured, then base64-decode and cloudpickle-load. -/
def deserialize {α : Type} (loads : List Nat → Option α) (C : BlockCipher)
    (useKey : Bool) (s : List Nat) : Option α :=
  (match useKey with
   | true => AESCipher.decrypt C s
   | false => some s).bind fun s2 =>
  (b64decode s2).bind loads

theorem getLast?_replicate_succ (n a : Nat) :
    (List.replicate (n + 1) a).getLast? = some a := by
  induction n with
  | zero => rfl
  | succ k ih => simpa [List.replicate_succ] using ih

theorem _pad_valid (s : List Nat) (hs : ValidBytes s) : ValidBytes (_pad s) := by
  intro b hb
  rcases List.mem_append.mp hb with h | h
  · exact hs b h
  · have := List.eq_of_mem_replicate h
    omega

/-- Unpadding inverts padding. -/
theorem _unpad_pad (s : List Nat) : _unpad (_pad s) = s := by
  unfold _pad _unpad
  have hk1 : 1 ≤ 32 - s.length % 32 := by omega
  have hlast :
      (s ++ List.replicate (32 - s.length % 32) (32 - s.length % 32)).getLastD 0
        = 32 - s.length % 32 := by
    rw [List.getLastD_eq_getLast?, List.getLast?_append_of_ne_nil]
    · cases hk : 32 - s.length % 32 with
      | zero => omega
      | succ n => rw [getLast?_replicate_succ]; rfl
    · simp only [ne_eq, List.replicate_eq_nil_iff]
      omega
  rw [hlast, List.length_append, List.length_replicate,
    Nat.add_sub_cancel, List.take_left]

/-- Decrypting an encryption with the same cipher recovers the plaintext. -/
theorem AESCipher.decrypt_encrypt (C : BlockCipher) (iv s : List Nat)
    (hdec : ∀ iv d, C.dec iv (C.enc iv d) = d)
    (hivlen : iv.length = 16) (hivvalid : ValidBytes iv)
    (hencvalid : ∀ iv d, ValidBytes d → ValidBytes (C.enc iv d))
    (hs : ValidBytes s) :
    AESCipher.decrypt C (AESCipher.encrypt C iv s) = some s := by
  unfold AESCipher.encrypt AESCipher.decrypt
  have hvalid : ValidBytes (iv ++ C.enc iv (_pad s)) := by
    intro b hb
    rcases List.mem_append.mp hb with h | h
    · exact hivvalid b h
    · exact hencvalid iv (_pad s) (_pad_valid s hs) b h
  rw [b64decode_b64encode _ hvalid, Option.map_some']
  have htake : (iv ++ C.enc iv (_pad s)).take 16 = iv := by
    rw [← hivlen]
    exact List.take_left iv _
  have hdrop : (iv ++ C.enc iv (_pad s)).drop 16 = C.enc iv (_pad s) := by
    rw [← hivlen]
    exact List.drop_left iv _
  rw [htake, hdrop, hdec, _unpad_pad]

/-- C8: padding adds between 1 and 32 bytes and unpadding removes exactly
them; decrypt inverts encrypt under the same key; deserialize inverts
serialize with and without an encryption key. -/
theorem claim_C8_serialize_roundtrip {α : Type}
    (C : BlockCipher) (iv : List Nat) (dumps : α → List Nat)
    (loads : List Nat → Option α) (obj : α) (s : List Nat)
    (hdec : ∀ iv d, C.dec iv (C.enc iv d) = d)
    (hivlen : iv.length = 16) (hivvalid : ValidBytes iv)
    (hencvalid : ∀ iv d, ValidBytes d → ValidBytes (C.enc iv d))
    (hloads : loads (dumps obj) = some obj)
    (hdumps : ValidBytes (dumps obj))
    (hs : ValidBytes s) :
    (∃ k, 1 ≤ k ∧ k ≤ 32 ∧ (_pad s).length = s.length + k ∧
      _unpad (_pad s) = s) ∧
    AESCipher.decrypt C (AESCipher.encrypt C iv s) = some s ∧
    deserialize loads C true (serialize dumps C iv true obj) = some obj ∧
    deserialize loads C false (serialize dumps C iv false obj) = some obj := by
  refine ⟨⟨32 - s.length % 32, by omega, by omega, by simp [_pad], _unpad_pad s⟩,
    AESCipher.decrypt_encrypt C iv s hdec hivlen hivvalid hencvalid hs, ?_, ?_⟩
  · show ((AESCipher.decrypt C (AESCipher.encrypt C iv (b64encode (dumps obj)))).bind
      fun s2 => (b64decode s2).bind loads) = some obj
    rw [AESCipher.decrypt_encrypt C iv _ hdec hivlen hivvalid hencvalid
      (b64encode_valid _), Option.some_bind,
      b64decode_b64encode _ hdumps, Option.some_bind, hloads]
  · show ((some (b64encode (dumps obj))).bind
      fun s2 => (b64decode s2).bind loads) = some obj
    rw [Option.some_bind, b64decode_b64encode _ hdumps, Option.some_bind, hloads]

/-- The identity cipher, standing in for AES in the concrete instance. -/
def idCipher : BlockCipher := ⟨fun _ d => d, fun _ d => d⟩

/-- Concrete instance of C8 at the bytes `hi` and the object `7`. -/
theorem claim_C8_witness :
    (∃ k, 1 ≤ k ∧ k ≤ 32 ∧ (_pad [104, 105]).length = [104, 105].length + k ∧
      _unpad (_pad [104, 105]) = [104, 105]) ∧
    AESCipher.decrypt idCipher
        (AESCipher.encrypt idCipher (List.replicate 16 0) [104, 105])
      = some [104, 105] ∧
    deserialize (fun l => l.head?) idCipher true
        (serialize (fun n => [n % 256]) idCipher (List.replicate 16 0) true 7)
      = some 7 ∧
    deserialize (fun l => l.head?) idCipher false
        (serialize (fun n => [n % 256]) idCipher (List.replicate 16 0) false 7)
      = some 7 :=
  claim_C8_serialize_roundtrip idCipher (List.replicate 16 0)
    (fun n => [n % 256]) (fun l => l.head?) 7 [104, 105]
    (fun _ _ => rfl) rfl (by decide) (fun _ _ h => h) rfl (by decide) (by decide)

/-! ### `src/src/prefect/orion/utilities/schemas.py` -/

/-- A pydantic model's `__fields__`, embedded as an association list from
field name to field info (opaque, here a `Nat` tag). -/
abbrev Fields := List (String × Nat)

/-- `subclass_model`: remembers `original_fields = base.__fields__`, computes
`field_names = set(include or base.__fields__) - (exclude or [])` — note
Python truthiness: an *empty* `include` list selects all fields — replaces
`base.__fields__` by its restriction to `field_names`, creates the subclass
(`create_model(..., __base__=base)` inherits exactly the current
`base.__fields__`), and restores the original.  Result: (the subclass's
fields, `base.__fields__` after the call). -/
def subclass_model (baseFields : Fields) (incl excl : Option (List String)) :
    Fields × Fields :=
  let original_fields := baseFields
  let field_names :=
    match incl with
    | some l => if l = [] then baseFields.map Prod.fst else l
    | none => baseFields.map Prod.fst
  let excluded := excl.getD []
  let newFields :=
    baseFields.filter fun kv =>
      decide (kv.1 ∈ field_names) && decide (kv.1 ∉ excluded)
  (newFields, original_fields)

/-- The fields the claim's words predict: the base's fields restricted to
`include` — all fields only when `include` is `None` — minus `exclude`. -/
def claimedSubclassFields (baseFields : Fields)
    (incl excl : Option (List String)) : Fields :=
  baseFields.filter fun kv =>
    decide (kv.1 ∈ incl.getD (baseFields.map Prod.fst))
      && decide (kv.1 ∉ excl.getD [])

/-- C9 fails as stated: for `include = []` (an empty list, not `None`)
Python's `set(include or base.__fields__)` falls back to *all* fields, while
the claim predicts the empty restriction. -/
theorem claim_C9_counterexample :
    (subclass_model [("x", 0)] (some []) none).1 = [("x", 0)] ∧
    claimedSubclassFields [("x", 0)] (some []) none = [] ∧
    (subclass_model [("x", 0)] (some []) none).1
      ≠ claimedSubclassFields [("x", 0)] (some []) none := by
  refine ⟨by decide, by decide, by decide⟩

/-- Python's `include or base.__fields__`: all field names when `include` is
`None` or empty. -/
def effectiveInclude (incl : Option (List String)) (keys : List String) :
    List String :=
  match incl with
  | some l => if l = [] then keys else l
  | none => keys

/-- C9 (amended): `subclass_model` restores `base.__fields__` to exactly the
mapping it held before the call, and the subclass's fields are exactly the
base's fields restricted to `include` — or all fields when `include` is
`None` *or empty* — minus `exclude`. -/
theorem claim_C9_subclass_fields (baseFields : Fields)
    (incl excl : Option (List String)) :
    (subclass_model baseFields incl excl).2 = baseFields ∧
    (∀ kv, kv ∈ (subclass_model baseFields incl excl).1 ↔
      kv ∈ baseFields ∧
      kv.1 ∈ effectiveInclude incl (baseFields.map Prod.fst) ∧
      kv.1 ∉ excl.getD []) := by
  refine ⟨rfl, ?_⟩
  intro kv
  cases incl with
  | none =>
    simp [subclass_model, effectiveInclude, List.mem_filter, and_assoc]
  | some l =>
    by_cases hl : l = [] <;>
      simp [subclass_model, effectiveInclude, List.mem_filter, hl, and_assoc]

/-! ### `patch_json` in `src/prefect/utilities/serialize.py`

`patch_json` installs global JSON hooks: the encoder maps a `datetime` to
`{"__datetime__": obj.isoformat()}` and a `timedelta` to
`{"__timedelta__": obj.total_seconds()}`; the decoder's object hook
reverses them via `dateutil.parser.parse` and `timedelta(seconds=...)`.
`total_seconds` returns a CPython `float` (IEEE-754 binary64), embedded
below as the exact rational it denotes, with the correct rounding CPython's
float division and multiplication perform made explicit. -/

/-- Round a rational to the nearest integer, ties to even (CPython's
`round`). -/
def rnEvenInt (q : ℚ) : ℤ :=
  if q - ⌊q⌋ < 1 / 2 then ⌊q⌋
  else if 1 / 2 < q - ⌊q⌋ then ⌊q⌋ + 1
  else if ⌊q⌋ % 2 = 0 then ⌊q⌋ else ⌊q⌋ + 1

/-- Floor of the base-2 logarithm of a positive rational: a candidate from
`Nat.log2` of the floor (or of the floor of the reciprocal), then an
explicit fix-up to the exponent `e` with `2 ^ e ≤ q < 2 ^ (e + 1)`. -/
def qlog2 (q : ℚ) : ℤ :=
  let e0 : ℤ :=
    if 1 ≤ q then (Nat.log2 ⌊q⌋.toNat : ℤ)
    else -((Nat.log2 ⌊q⁻¹⌋.toNat : ℤ) + 1)
  if (2 : ℚ) ^ (e0 + 1) ≤ q then e0 + 1
  else if q < (2 : ℚ) ^ e0 then e0 - 1
  else e0

/-- The binary64 value nearest to a positive rational (overflow to infinity
and subnormal underflow are outside the magnitudes handled here): round the
value scaled to a 53-bit mantissa to the nearest integer, ties to even. -/
def roundDoubleAbs (q : ℚ) : ℚ :=
  ((rnEvenInt (q * 2 ^ (52 - qlog2 q)) : ℤ) : ℚ) * 2 ^ (qlog2 q - 52)

/-- The binary64 value nearest to a rational; CPython arithmetic on floats
is correctly rounded, so every float result below is `roundDouble` of the
exact value. -/
def roundDouble (q : ℚ) : ℚ :=
  if q = 0 then 0
  else if q < 0 then -roundDoubleAbs (-q)
  else roundDoubleAbs q

/-- CPython `datetime.timedelta` as stored: normalized to
`0 ≤ seconds < 86400` and `0 ≤ microseconds < 10 ^ 6`. -/
structure Timedelta where
  days : ℤ
  seconds : ℕ
  microseconds : ℕ
deriving DecidableEq

/-- The normalization invariant CPython's constructor guarantees. -/
def Timedelta.Normalized (t : Timedelta) : Prop :=
  t.seconds < 86400 ∧ t.microseconds < 1000000

instance : DecidablePred Timedelta.Normalized := fun _ =>
  instDecidableAnd

/-- The exact content of a timedelta in microseconds. -/
def totalMicroseconds (t : Timedelta) : ℤ :=
  (t.days * 86400 + t.seconds) * 1000000 + t.microseconds

/-- `timedelta.total_seconds()`: CPython evaluates
`((days * 86400 + seconds) * 10 ** 6 + microseconds) / 10 ** 6` — an exact
integer divided by `10 ** 6` in one correctly rounded float division. -/
def total_seconds (t : Timedelta) : ℚ :=
  roundDouble ((totalMicroseconds t : ℚ) / 1000000)

/-- Truncation toward zero: the integral part delivered by C `modf`. -/
def qtrunc (q : ℚ) : ℤ := if q < 0 then -⌊-q⌋ else ⌊q⌋

/-- The divmod chain of CPython's `timedelta.__new__` turning whole seconds
and microseconds into normalized `(days, seconds, microseconds)`; Python
`divmod` is floor division (`Int.fdiv` / `Int.fmod`). -/
def timedeltaNormalize (ipart micros : ℤ) : Timedelta :=
  let d0 := Int.fdiv ipart 86400
  let s0 := Int.fmod ipart 86400
  let s1 := s0 + Int.fdiv micros 1000000
  let us := Int.fmod micros 1000000
  { days := d0 + Int.fdiv s1 86400
    seconds := (Int.fmod s1 86400).toNat
    microseconds := us.toNat }

/-- CPython `timedelta(seconds=f)` for a float `f`: `modf` splits `f`
exactly (both parts are binary64 values), the fraction is multiplied by
`1e6` in one correctly rounded float multiplication, CPython `round`
(half to even) makes it an integer microsecond count, and the divmod chain
normalizes. -/
def timedeltaFromSecondsFloat (f : ℚ) : Timedelta :=
  timedeltaNormalize (qtrunc f)
    (rnEvenInt (roundDouble ((f - (qtrunc f : ℤ)) * 1000000)))

/-- JSON values, as the hooks see them. -/
inductive JValue where
  | jnull
  | jbool (b : Bool)
  | jnum (q : ℚ)
  | jstr (s : String)
  | jarr (items : List JValue)
  | jobj (fields : List (String × JValue))

/-- The two time types `patch_json`'s encoder special-cases; `δ` is the
`datetime.datetime` type, kept abstract (its `isoformat`/`parse` pair is an
external collaborator). -/
inductive TimeValue (δ : Type) where
  | dt (d : δ)
  | td (t : Timedelta)

/-- What `json.loads` hands back after the object hook ran. -/
inductive Decoded (δ : Type) where
  | dt (d : δ)
  | td (t : Timedelta)
  | raw (fields : List (String × JValue))
  | err

/-- The encoder `patch_json` installs: datetimes become
`{"__datetime__": isoformat}`, timedeltas `{"__timedelta__": total
seconds}`. -/
def encode_json {δ : Type} (iso : δ → String) : TimeValue δ → JValue
  | .dt d => .jobj [("__datetime__", .jstr (iso d))]
  | .td t => .jobj [("__timedelta__", .jnum (total_seconds t))]

/-- The decoder hook `patch_json` installs (`_default_object_hook`),
restricted to the two time keys: `__datetime__` is checked first and parsed
with `dateutil.parser.parse`, then `__timedelta__` is restored with
`timedelta(seconds=...)`; other objects pass through. -/
def _default_object_hook {δ : Type} (parse : String → Option δ)
    (fields : List (String × JValue)) : Decoded δ :=
  match fields.lookup ("__datetime__") with
  | some (.jstr s) =>
      match parse s with
      | some d => .dt d
      | none => .err
  | some _ => .err
  | none =>
    match fields.lookup ("__timedelta__") with
    | some (.jnum q) => .td (timedeltaFromSecondsFloat q)
    | some _ => .err
    | none => .raw fields

/-- `json.loads(json.dumps(x))` for a time value after `patch_json`: encode
with the installed encoder, then run the installed object hook on the
resulting object. -/
def json_roundtrip {δ : Type} (iso : δ → String)
    (parse : String → Option δ) (x : TimeValue δ) : Decoded δ :=
  match encode_json iso x with
  | .jobj fields => _default_object_hook parse fields
  | _ => .err

/-! Facts about the rounding model, needed to settle the time-value
round-trip claim. -/

theorem rnEvenInt_intCast (m : ℤ) : rnEvenInt (m : ℚ) = m := by
  unfold rnEvenInt
  rw [Int.floor_intCast]
  rw [if_pos (by norm_num)]

theorem rnEvenInt_zero : rnEvenInt 0 = 0 := by
  simpa using rnEvenInt_intCast 0

/-- `qlog2` does satisfy the floor-log sandwich for `q ≥ 1`. -/
theorem qlog2_spec (q : ℚ) (hq : 1 ≤ q) :
    (2 : ℚ) ^ qlog2 q ≤ q ∧ q < (2 : ℚ) ^ (qlog2 q + 1) := by
  have hfl : (1 : ℤ) ≤ ⌊q⌋ := by
    exact_mod_cast Int.le_floor.mpr (by exact_mod_cast hq)
  have hfl0 : ⌊q⌋.toNat ≠ 0 := by omega
  have hcast : ((⌊q⌋.toNat : ℤ) : ℚ) = (⌊q⌋ : ℚ) := by
    congr 1
    omega
  set n := ⌊q⌋.toNat with hn
  set e0 : ℤ := (Nat.log2 n : ℤ) with he0
  have hlow : (2 : ℚ) ^ e0 ≤ q := by
    have h1 : (2 : ℕ) ^ n.log2 ≤ n := Nat.log2_self_le hfl0
    have h2 : ((2 ^ n.log2 : ℕ) : ℚ) ≤ ((n : ℕ) : ℚ) := by exact_mod_cast h1
    calc (2 : ℚ) ^ e0 = ((2 ^ n.log2 : ℕ) : ℚ) := by
          rw [he0, zpow_natCast]
          push_cast
          ring
      _ ≤ (n : ℚ) := h2
      _ = (⌊q⌋ : ℚ) := by exact_mod_cast hcast
      _ ≤ q := Int.floor_le q
  have hhigh : q < (2 : ℚ) ^ (e0 + 1) := by
    have h1 : n < 2 ^ (n.log2 + 1) := Nat.lt_log2_self
    have h3 : (⌊q⌋ : ℚ) + 1 ≤ ((2 ^ (n.log2 + 1) : ℕ) : ℚ) := by
      have h4 : (⌊q⌋ : ℤ) + 1 ≤ ((2 ^ (n.log2 + 1) : ℕ) : ℤ) := by
        have : (n : ℤ) < ((2 ^ (n.log2 + 1) : ℕ) : ℤ) := by exact_mod_cast h1
        omega
      exact_mod_cast h4
    calc q < (⌊q⌋ : ℚ) + 1 := Int.lt_floor_add_one q
      _ ≤ ((2 ^ (n.log2 + 1) : ℕ) : ℚ) := h3
      _ = (2 : ℚ) ^ (e0 + 1) := by
          rw [he0]
          push_cast
          rw [← zpow_natCast (2 : ℚ) (n.log2 + 1)]
          push_cast
          ring
  unfold qlog2
  rw [if_pos hq]
  simp only [← he0, ← hn]
  rw [if_neg (not_le.mpr hhigh), if_neg (not_lt.mpr hlow)]
  exact ⟨hlow, hhigh⟩

/-- The floor-log sandwich determines `qlog2`. -/
theorem qlog2_eq_of (q : ℚ) (e : ℤ) (hq : 1 ≤ q)
    (h1 : (2 : ℚ) ^ e ≤ q) (h2 : q < (2 : ℚ) ^ (e + 1)) : qlog2 q = e := by
  obtain ⟨hl, hh⟩ := qlog2_spec q hq
  by_contra hne
  rcases lt_or_gt_of_ne hne with hlt | hgt
  · have : (2 : ℚ) ^ (qlog2 q + 1) ≤ (2 : ℚ) ^ e :=
      zpow_le_zpow_right₀ one_le_two (by omega)
    linarith
  · have : (2 : ℚ) ^ (e + 1) ≤ (2 : ℚ) ^ qlog2 q :=
      zpow_le_zpow_right₀ one_le_two (by omega)
    linarith

/-- Integers of magnitude below `2 ^ 53` are binary64 values: rounding
leaves them unchanged. -/
theorem roundDoubleAbs_intCast (n : ℤ) (h1 : 1 ≤ n) (h2 : n < 2 ^ 53) :
    roundDoubleAbs (n : ℚ) = (n : ℚ) := by
  have hq : (1 : ℚ) ≤ (n : ℚ) := by exact_mod_cast h1
  obtain ⟨hl, hh⟩ := qlog2_spec (n : ℚ) hq
  set e := qlog2 (n : ℚ) with he
  have he0 : 0 ≤ e := by
    by_contra hneg
    push_neg at hneg
    have : (2 : ℚ) ^ (e + 1) ≤ (2 : ℚ) ^ (0 : ℤ) :=
      zpow_le_zpow_right₀ one_le_two (by omega)
    rw [zpow_zero] at this
    linarith
  have he52 : e ≤ 52 := by
    by_contra hgt
    push_neg at hgt
    have h53 : (2 : ℚ) ^ ((53 : ℕ) : ℤ) ≤ (2 : ℚ) ^ e :=
      zpow_le_zpow_right₀ one_le_two (by push_cast; omega)
    have hn53 : (n : ℚ) < (2 : ℚ) ^ ((53 : ℕ) : ℤ) := by
      rw [zpow_natCast]
      exact_mod_cast h2
    linarith
  set k : ℕ := (52 - e).toNat with hkdef
  have hk : (k : ℤ) = 52 - e := Int.toNat_of_nonneg (by omega)
  have hm : (n : ℚ) * 2 ^ ((52 : ℤ) - e) = ((n * 2 ^ k : ℤ) : ℚ) := by
    rw [← hk, zpow_natCast]
    push_cast
    ring
  unfold roundDoubleAbs
  rw [← he, hm, rnEvenInt_intCast]
  push_cast
  rw [mul_assoc, ← zpow_natCast (2 : ℚ) k, ← zpow_add₀ (by norm_num : (2:ℚ) ≠ 0)]
  have hzero : (k : ℤ) + (e - 52) = 0 := by omega
  rw [hzero, zpow_zero, mul_one]

theorem roundDouble_zero : roundDouble 0 = 0 := by
  unfold roundDouble
  norm_num

theorem roundDouble_intCast (n : ℤ) (h : n.natAbs < 2 ^ 53) :
    roundDouble (n : ℚ) = (n : ℚ) := by
  unfold roundDouble
  rcases lt_trichotomy n 0 with hneg | hzero | hpos
  · rw [if_neg (by exact_mod_cast hneg.ne), if_pos (by exact_mod_cast hneg)]
    have hcast : -(n : ℚ) = ((-n : ℤ) : ℚ) := by push_cast; ring
    rw [hcast, roundDoubleAbs_intCast (-n) (by omega) (by omega)]
    push_cast
    ring
  · subst hzero
    norm_num
  · rw [if_neg (by exact_mod_cast hpos.ne'),
      if_neg (by exact_mod_cast not_lt.mpr hpos.le)]
    exact roundDoubleAbs_intCast n (by omega) (by omega)

theorem qtrunc_intCast (n : ℤ) : qtrunc (n : ℚ) = n := by
  unfold qtrunc
  rcases lt_or_le n 0 with h | h
  · rw [if_pos (by exact_mod_cast h)]
    rw [show -(n:ℚ) = ((-n : ℤ) : ℚ) by push_cast; ring, Int.floor_intCast]
    omega
  · rw [if_neg (by exact_mod_cast not_lt.mpr h), Int.floor_intCast]

/-- The divmod chain recovers a normalized whole-second timedelta. -/
theorem timedeltaNormalize_whole (d : ℤ) (s : ℕ) (hs : s < 86400) :
    timedeltaNormalize (d * 86400 + s) 0 = ⟨d, s, 0⟩ := by
  unfold timedeltaNormalize
  simp only [Timedelta.mk.injEq]
  rw [Int.fdiv_eq_ediv _ (by norm_num), Int.fdiv_eq_ediv _ (by norm_num),
    Int.fdiv_eq_ediv _ (by norm_num), Int.fmod_eq_emod _ (by norm_num),
    Int.fmod_eq_emod _ (by norm_num), Int.fmod_eq_emod _ (by norm_num)]
  refine ⟨by omega, by omega, by omega⟩

/-- `timedelta(seconds=f)` on an exactly-integer float takes the whole-second
path: no fraction, no microseconds. -/
theorem timedeltaFromSecondsFloat_intCast (S : ℤ) :
    timedeltaFromSecondsFloat (S : ℚ) = timedeltaNormalize S 0 := by
  unfold timedeltaFromSecondsFloat
  rw [qtrunc_intCast]
  have hzero : ((S : ℚ) - (S : ℤ)) * 1000000 = 0 := by
    norm_num
  rw [hzero, roundDouble_zero, rnEvenInt_zero]

/-- `total_seconds` is exact on whole-second timedeltas below `2 ^ 53`
seconds. -/
theorem total_seconds_whole (t : Timedelta) (hus : t.microseconds = 0)
    (hS : (t.days * 86400 + (t.seconds : ℤ)).natAbs < 2 ^ 53) :
    total_seconds t = ((t.days * 86400 + (t.seconds : ℤ) : ℤ) : ℚ) := by
  unfold total_seconds totalMicroseconds
  rw [hus]
  have hdiv : ((((t.days * 86400 + t.seconds) * 1000000 + ((0:ℕ):ℤ) : ℤ) : ℚ)) / 1000000
      = ((t.days * 86400 + (t.seconds : ℤ) : ℤ) : ℚ) := by
    push_cast
    field_simp
  rw [hdiv, roundDouble_intCast _ hS]

/-- C10 (amended): after `patch_json`, the hooks round-trip every datetime
(given the external parser inverts `isoformat`), and round-trip a timedelta
only within the precision of the `total_seconds` double — exactly, for
whole-second timedeltas of magnitude below `2 ^ 53` seconds. -/
theorem claim_C10_time_roundtrip {δ : Type} (iso : δ → String)
    (parse : String → Option δ)
    (hparse : ∀ d, parse (iso d) = some d) :
    (∀ d, json_roundtrip iso parse (.dt d) = .dt d) ∧
    (∀ t : Timedelta, t.Normalized →
      t.microseconds = 0 →
      (t.days * 86400 + (t.seconds : ℤ)).natAbs < 2 ^ 53 →
      json_roundtrip iso parse (.td t) = .td t) := by
  constructor
  · intro d
    simp [json_roundtrip, encode_json, _default_object_hook, List.lookup, hparse]
  · intro t hnorm hus hS
    obtain ⟨d, s, us⟩ := t
    simp only at hus
    subst hus
    have hdecode : json_roundtrip iso parse (.td ⟨d, s, 0⟩)
        = .td (timedeltaFromSecondsFloat (total_seconds ⟨d, s, 0⟩)) := by
      simp [json_roundtrip, encode_json, _default_object_hook, List.lookup]
    rw [hdecode, total_seconds_whole ⟨d, s, 0⟩ rfl hS,
      timedeltaFromSecondsFloat_intCast, timedeltaNormalize_whole d s hnorm.1]

/-- Concrete instance of C10 (amended) at a trivial datetime codec and the
timedelta of 1 day, 5 seconds. -/
theorem claim_C10_witness :
    json_roundtrip (δ := Unit) (fun _ => "d") (fun _ => some ())
        (.dt ()) = .dt () ∧
    json_roundtrip (δ := Unit) (fun _ => "d") (fun _ => some ())
        (.td ⟨1, 5, 0⟩) = .td ⟨1, 5, 0⟩ :=
  ⟨(claim_C10_time_roundtrip (fun _ => "d") (fun _ => some ())
      (fun _ => rfl)).1 (),
   (claim_C10_time_roundtrip (fun _ => "d") (fun _ => some ())
      (fun _ => rfl)).2 ⟨1, 5, 0⟩ (by decide) rfl (by decide)⟩

/-! The counterexample computation: `timedelta(days=106752, microseconds=1)`
is 9223372800.000001 s exactly, but the nearest binary64 is
`4835703678566401 / 2 ^ 19` = 9223372800.0000019... s, which decodes back to
`timedelta(days=106752, microseconds=2)` (CPython agrees on both values). -/

theorem rnEvenInt_eq_up (q : ℚ) (f : ℤ) (hfl : (f : ℚ) ≤ q)
    (hfh : q < f + 1) (hr : 1 / 2 < q - f) : rnEvenInt q = f + 1 := by
  have hfloor : ⌊q⌋ = f := Int.floor_eq_iff.mpr ⟨hfl, hfh⟩
  unfold rnEvenInt
  rw [hfloor, if_neg (by linarith), if_pos hr]

theorem rnEvenInt_eq_down (q : ℚ) (f : ℤ) (hfl : (f : ℚ) ≤ q)
    (hfh : q < f + 1) (hr : q - f < 1 / 2) : rnEvenInt q = f := by
  have hfloor : ⌊q⌋ = f := Int.floor_eq_iff.mpr ⟨hfl, hfh⟩
  unfold rnEvenInt
  rw [hfloor, if_pos hr]

theorem total_seconds_collision :
    total_seconds ⟨106752, 0, 1⟩ = 4835703678566401 / 524288 := by
  have hexact : ((totalMicroseconds ⟨106752, 0, 1⟩ : ℤ) : ℚ) / 1000000
      = 9223372800000001 / 1000000 := by
    norm_num [totalMicroseconds]
  have he33 : qlog2 (9223372800000001 / 1000000 : ℚ) = 33 :=
    qlog2_eq_of _ 33 (by norm_num) (by norm_num) (by norm_num)
  have habs : roundDoubleAbs (9223372800000001 / 1000000 : ℚ)
      = 4835703678566401 / 524288 := by
    unfold roundDoubleAbs
    rw [he33]
    have hm : (9223372800000001 / 1000000 : ℚ) * 2 ^ ((52 : ℤ) - 33)
        = 75557869977600008192 / 15625 := by norm_num
    rw [hm, rnEvenInt_eq_up _ 4835703678566400 (by norm_num) (by norm_num)
      (by norm_num)]
    norm_num
  unfold total_seconds
  rw [hexact]
  unfold roundDouble
  rw [if_neg (by norm_num), if_neg (by norm_num)]
  exact habs

theorem timedelta_decode_collision :
    timedeltaFromSecondsFloat (4835703678566401 / 524288) = ⟨106752, 0, 2⟩ := by
  unfold timedeltaFromSecondsFloat
  have htr : qtrunc (4835703678566401 / 524288 : ℚ) = 9223372800 := by
    unfold qtrunc
    rw [if_neg (by norm_num)]
    exact Int.floor_eq_iff.mpr (by norm_num)
  rw [htr]
  have hfrac : ((4835703678566401 / 524288 : ℚ) - ((9223372800 : ℤ) : ℚ)) * 1000000
      = 15625 / 8192 := by
    push_cast
    norm_num
  rw [hfrac]
  have he0 : qlog2 (15625 / 8192 : ℚ) = 0 :=
    qlog2_eq_of _ 0 (by norm_num) (by norm_num) (by norm_num)
  have hrd : roundDouble (15625 / 8192 : ℚ) = 15625 / 8192 := by
    unfold roundDouble
    rw [if_neg (by norm_num), if_neg (by norm_num)]
    unfold roundDoubleAbs
    rw [he0]
    have hm : (15625 / 8192 : ℚ) * 2 ^ ((52 : ℤ) - 0) = 8589934592000000 := by
      norm_num
    rw [hm, rnEvenInt_eq_down _ 8589934592000000 (by norm_num) (by norm_num)
      (by norm_num)]
    norm_num
  rw [hrd]
  have hmic : rnEvenInt (15625 / 8192 : ℚ) = 2 := by
    rw [rnEvenInt_eq_up _ 1 (by norm_num) (by norm_num) (by norm_num)]
    norm_num
  rw [hmic]
  decide

/-- C10 fails as stated: the global hooks do **not** round-trip every
timedelta.  `timedelta(days=106752, microseconds=1)` encodes to the double
`total_seconds()` value `4835703678566401 / 2 ^ 19` and decodes back to
`timedelta(days=106752, microseconds=2)` — one microsecond off. -/
theorem claim_C10_counterexample :
    json_roundtrip (δ := Unit) (fun _ => "d") (fun _ => some ())
        (.td ⟨106752, 0, 1⟩) = .td ⟨106752, 0, 2⟩ ∧
    json_roundtrip (δ := Unit) (fun _ => "d") (fun _ => some ())
        (.td ⟨106752, 0, 1⟩) ≠ .td ⟨106752, 0, 1⟩ := by
  have hdecode : json_roundtrip (δ := Unit) (fun _ => "d") (fun _ => some ())
      (.td ⟨106752, 0, 1⟩)
      = .td (timedeltaFromSecondsFloat (total_seconds ⟨106752, 0, 1⟩)) := by
    simp [json_roundtrip, encode_json, _default_object_hook, List.lookup]
  rw [hdecode, total_seconds_collision, timedelta_decode_collision]
  refine ⟨rfl, ?_⟩
  intro hcontra
  injection hcontra with hfields
  exact absurd hfields (by decide)

end Prefect
